import Mathlib

/-!
Verification of the folding / logup core of the proof-systems repository.

The definitions below are shallow embeddings of:
- `folding/src/instance_witness.rs` (relaxed instance/witness algebra),
- `kimchi/src/folding/expressions.rs` (expression simplification),
- `msm/src/logup.rs` (logarithmic-derivative lookup prover environment).

Rust panics and `assert!` failures are modelled by `Option` results
(`none` means the process aborts).  Field elements are modelled by an
arbitrary `Field F`; commitment group elements by an `AddCommGroup G`
with a scalar action of `F`.
-/

namespace Folding

/-- A polynomial commitment, as in `poly_commitment::commitment::PolyComm`:
a vector of group elements. -/
structure PolyComm (G : Type) where
  elems : List G
deriving DecidableEq

variable {F G I W : Type}

/-- `PolyComm::scale`: multiply every element by the scalar. -/
def PolyComm.scale [SMul F G] (c : F) (p : PolyComm G) : PolyComm G :=
  { elems := p.elems.map (fun g => c • g) }

/-- Modelled from the spec: the `poly_commitment` crate (not under the
sources at hand) provides `+` on commitments as the pointwise additive
homomorphism of the commitment scheme. -/
def PolyComm.add [Add G] (a b : PolyComm G) : PolyComm G :=
  { elems := List.zipWith (fun x y => x + y) a.elems b.elems }

/-- Modelled from the spec: pointwise subtraction of commitments, the
inverse of the additive homomorphism. -/
def PolyComm.sub [Sub G] (a b : PolyComm G) : PolyComm G :=
  { elems := List.zipWith (fun x y => x - y) a.elems b.elems }

/-- `ExtendedInstance`: a base instance plus commitments to the extra
columns added by quadraticization. -/
structure ExtendedInstance (I G : Type) where
  inst : I
  extended : List (PolyComm G)
deriving DecidableEq

/-- `RelaxedInstance`: an extended instance plus the slack scalar `u` and
the commitment to the error polynomial. -/
structure RelaxedInstance (I G F : Type) where
  extended_instance : ExtendedInstance I G
  u : F
  error_commitment : PolyComm G
deriving DecidableEq

/-- `ExtendedWitness`: a base witness plus the extra evaluation columns
added by quadraticization, keyed by column index (the Rust `BTreeMap` is
modelled as an association list sorted by key). -/
structure ExtendedWitness (W F : Type) where
  witness : W
  extended : List (Nat × List F)
deriving DecidableEq

/-- `RelaxedWitness`: an extended witness plus the error vector. -/
structure RelaxedWitness (W F : Type) where
  extended_witness : ExtendedWitness W F
  error_vec : List F
deriving DecidableEq

/-- The in-place update `a.iter_mut().zip(b).for_each(|(a, b)| *a += b * c)`:
entries of `a` beyond the length of `b` are left unchanged. -/
def addScaled [Field F] (a b : List F) (r : F) : List F :=
  List.zipWith (fun x y => x + y * r) a b ++ a.drop b.length

/-- `ExtendedInstance::combine` (`Foldable` impl): combine the base
instances and each pair of extended commitments as `a + b.scale(r)`.
The Rust `zip` silently truncates to the shorter side. -/
def ExtendedInstance.combine (combI : I → I → F → I) [SMul F G] [Add G]
    (a b : ExtendedInstance I G) (r : F) : ExtendedInstance I G :=
  { inst := combI a.inst b.inst r
    extended :=
      List.zipWith (fun x y => PolyComm.add x (PolyComm.scale r y)) a.extended b.extended }

/-- The zipped traversal inside `ExtendedWitness::combine`: pairs are
taken up to the shorter side (Rust `zip`), `assert_eq!(i, b.0)` on each
pair is modelled by returning `none` on a key mismatch, and the
evaluations are merged with `addScaled`. -/
def zipExtAssert [Field F] : List (Nat × List F) → List (Nat × List F) → F →
    Option (List (Nat × List F))
  | [], _, _ => some []
  | _ :: _, [], _ => some []
  | (i, ea) :: xs, (j, eb) :: ys, r =>
    if i = j then
      (zipExtAssert xs ys r).map (fun rest => (i, addScaled ea eb r) :: rest)
    else
      none

/-- `ExtendedWitness::combine` (`Foldable` impl). -/
def ExtendedWitness.combine [Field F] (combW : W → W → F → W)
    (a b : ExtendedWitness W F) (r : F) : Option (ExtendedWitness W F) :=
  (zipExtAssert a.extended b.extended r).map
    (fun ext => { witness := combW a.witness b.witness r, extended := ext })

/-- `RelaxedInstance::combine` (`Foldable` impl): the slack is
`u1 + u2 * challenge` and the error commitment is scaled by the *cube*
of the challenge. -/
def RelaxedInstance.combine (combI : I → I → F → I) [Field F] [SMul F G] [Add G]
    (a b : RelaxedInstance I G F) (r : F) : RelaxedInstance I G F :=
  let challenge_cube := r * r * r
  { extended_instance :=
      ExtendedInstance.combine combI a.extended_instance b.extended_instance r
    u := a.u + b.u * r
    error_commitment :=
      PolyComm.add a.error_commitment (PolyComm.scale challenge_cube b.error_commitment) }

/-- `RelaxedInstance::sub_errors`: subtract `e0.scale(r) + e1.scale(r^2)`
from the error commitment, leaving the other fields untouched. -/
def RelaxedInstance.sub_errors [Field F] [SMul F G] [Add G] [Sub G]
    (self : RelaxedInstance I G F) (e0 e1 : PolyComm G) (r : F) : RelaxedInstance I G F :=
  { self with
    error_commitment :=
      PolyComm.sub self.error_commitment
        (PolyComm.add (PolyComm.scale r e0) (PolyComm.scale (r * r) e1)) }

/-- `RelaxedInstance::combine_and_sub_error`. -/
def RelaxedInstance.combine_and_sub_error (combI : I → I → F → I) [Field F] [SMul F G]
    [Add G] [Sub G] (a b : RelaxedInstance I G F) (r : F) (e0 e1 : PolyComm G) :
    RelaxedInstance I G F :=
  (RelaxedInstance.combine combI a b r).sub_errors e0 e1 r

/-- `RelaxedWitness::combine` (`Foldable` impl): the error vector of `b`
is scaled by the cube of the challenge. -/
def RelaxedWitness.combine [Field F] (combW : W → W → F → W)
    (a b : RelaxedWitness W F) (r : F) : Option (RelaxedWitness W F) :=
  let challenge_cube := (r * r) * r
  (ExtendedWitness.combine combW a.extended_witness b.extended_witness r).map
    (fun ew => { extended_witness := ew
                 error_vec := addScaled a.error_vec b.error_vec challenge_cube })

/-- The in-place update in `RelaxedWitness::sub_error`:
`*a -= ((e1 * challenge) + e0) * challenge`, pointwise over the zip of
the error vector with `e0.zip(e1)`. -/
def subErrVec [Field F] (a e0 e1 : List F) (r : F) : List F :=
  List.zipWith (fun x p => x - ((Prod.snd p * r + Prod.fst p) * r)) a (e0.zip e1) ++
    a.drop (e0.zip e1).length

/-- `RelaxedWitness::sub_error`. -/
def RelaxedWitness.sub_error [Field F] (self : RelaxedWitness W F)
    (e0 e1 : List F) (r : F) : RelaxedWitness W F :=
  { self with error_vec := subErrVec self.error_vec e0 e1 r }

/-- `RelaxedWitness::combine_and_sub_error`. -/
def RelaxedWitness.combine_and_sub_error [Field F] (combW : W → W → F → W)
    (a b : RelaxedWitness W F) (r : F) (e0 e1 : List F) : Option (RelaxedWitness W F) :=
  (RelaxedWitness.combine combW a b r).map (fun w => w.sub_error e0 e1 r)

/-- `Instance::relax`: extend the instance with an empty list of extra
commitments, set the slack to one and the error commitment to the given
commitment to zero. -/
def Instance.relax [Field F] (x : I) (zero_commit : PolyComm G) : RelaxedInstance I G F :=
  { extended_instance := { inst := x, extended := [] }
    u := 1
    error_commitment := zero_commit }

/-- `Witness::relax`: extend the witness with an empty column map and set
the error vector to the given evaluations of the zero polynomial. -/
def Witness.relax (w : W) (zero_poly : List F) : RelaxedWitness W F :=
  { extended_witness := { witness := w, extended := [] }
    error_vec := zero_poly }

/-- `RelaxableInstance` impl for `RelaxedInstance`: relaxing an already
relaxed instance returns it unchanged, ignoring the commitment argument. -/
def RelaxedInstance.relax (self : RelaxedInstance I G F)
    (_zero_commitment : PolyComm G) : RelaxedInstance I G F :=
  self

/-- `RelaxableWitness` impl for `RelaxedWitness`: relaxing an already
relaxed witness returns it unchanged, ignoring the polynomial argument. -/
def RelaxedWitness.relax (self : RelaxedWitness W F)
    (_zero_poly : List F) : RelaxedWitness W F :=
  self

/-- The element collection in `ExtendedInstance::to_absorb`: each extra
commitment must have exactly one element (`assert_eq!(commit.elems.len(), 1)`),
and those elements are gathered in order. -/
def collectUnitComms : List (PolyComm G) → Option (List G)
  | [] => some []
  | c :: cs =>
    match c.elems with
    | [g] => (collectUnitComms cs).map (fun rest => g :: rest)
    | _ => none

/-- `ExtendedInstance::to_absorb`: the base scalars are unchanged and the
unit-length extra commitments are appended to the base commitments. -/
def ExtendedInstance.to_absorb (absI : I → List F × List G)
    (self : ExtendedInstance I G) : Option (List F × List G) :=
  (collectUnitComms self.extended).map
    (fun exts => ((absI self.inst).1, (absI self.inst).2 ++ exts))

/-- `RelaxedInstance::to_absorb`: append `u` to the scalars and, after
`assert_eq!(self.error_commitment.elems.len(), 1)`, the error commitment
element to the points. -/
def RelaxedInstance.to_absorb (absI : I → List F × List G)
    (self : RelaxedInstance I G F) : Option (List F × List G) :=
  (ExtendedInstance.to_absorb absI self.extended_instance).bind
    (fun elements =>
      match self.error_commitment.elems with
      | [g] => some (elements.1 ++ [self.u], elements.2 ++ [g])
      | _ => none)

end Folding

namespace FoldingExprs

/-- `ExtendedFoldingColumn`: the cells a folding expression may reference.
`Col` stands for `Variable<C::Column>` and `Chal` for `C::Challenge`. -/
inductive ExtendedFoldingColumn (Col Chal F : Type) where
  | Inner (v : Col)
  | WitnessExtended (i : Nat)
  | Error
  | Shift
  | UnnormalizedLagrangeBasis (i : Nat)
  | Constant (c : F)
  | Challenge (c : Chal)
  | Alpha (i : Nat)

/-- `FoldingExp`: the internal expression used for folding. -/
inductive FoldingExp (Col Chal F : Type) where
  | Cell (c : ExtendedFoldingColumn Col Chal F)
  | Double (e : FoldingExp Col Chal F)
  | Square (e : FoldingExp Col Chal F)
  | Add (e1 e2 : FoldingExp Col Chal F)
  | Sub (e1 e2 : FoldingExp Col Chal F)
  | Mul (e1 e2 : FoldingExp Col Chal F)

/-- `Op2` from `kimchi::circuits::expr`. -/
inductive Op2 where
  | Add
  | Mul
  | Sub

/-- `ExpExtension`: extra nodes created by folding. -/
inductive ExpExtension where
  | U
  | Error
  | ExtendedWitness (i : Nat)
  | Alpha (i : Nat)
  | Shift

/-- `FoldingCompatibleExpr`: the input expression language of the folding
compiler. -/
inductive FoldingCompatibleExpr (Col Chal F : Type) where
  | Constant (c : F)
  | Challenge (c : Chal)
  | Cell (v : Col)
  | Double (e : FoldingCompatibleExpr Col Chal F)
  | Square (e : FoldingCompatibleExpr Col Chal F)
  | BinOp (op : Op2) (e1 e2 : FoldingCompatibleExpr Col Chal F)
  | VanishesOnZeroKnowledgeAndPreviousRows
  | UnnormalizedLagrangeBasis (i : Nat)
  | Pow (e : FoldingCompatibleExpr Col Chal F) (p : Nat)
  | Extensions (ext : ExpExtension)

variable {Col Chal F : Type}

/-- `FoldingCompatibleExpr::pow_to_mul`: rewrite a power with exponent
between 2 and 8 as multiplications and squarings; any other exponent
panics with "unsupported" (modelled as `none`).  The bindings `e_2` and
`e_4` are the squares built by the source. -/
def FoldingCompatibleExpr.pow_to_mul (exp : FoldingExp Col Chal F) (p : Nat) :
    Option (FoldingExp Col Chal F) :=
  let e := exp
  let e_2 := FoldingExp.Square e
  let e_4 := FoldingExp.Square e_2
  match p with
  | 2 => some e_2
  | 3 => some (FoldingExp.Mul e e_2)
  | 4 => some e_4
  | 5 => some (FoldingExp.Mul e e_4)
  | 6 => some (FoldingExp.Mul e_2 e_4)
  | 7 => some (FoldingExp.Mul e (FoldingExp.Mul e_2 e_4))
  | 8 => some (FoldingExp.Square e_4)
  | _ => none

/-- `FoldingCompatibleExpr::simplify`: translate into a `FoldingExp`.
`VanishesOnZeroKnowledgeAndPreviousRows` is `todo!()` and `Extensions`
panics, both modelled as `none`; `Pow` goes through `pow_to_mul`. -/
def FoldingCompatibleExpr.simplify :
    FoldingCompatibleExpr Col Chal F → Option (FoldingExp Col Chal F)
  | .Constant c => some (.Cell (.Constant c))
  | .Challenge c => some (.Cell (.Challenge c))
  | .Cell col => some (.Cell (.Inner col))
  | .Double e => e.simplify.map .Double
  | .Square e => e.simplify.map .Square
  | .BinOp op e1 e2 =>
    e1.simplify.bind (fun s1 => e2.simplify.map (fun s2 =>
      match op with
      | .Add => .Add s1 s2
      | .Mul => .Mul s1 s2
      | .Sub => .Sub s1 s2))
  | .VanishesOnZeroKnowledgeAndPreviousRows => none
  | .UnnormalizedLagrangeBasis i => some (.Cell (.UnnormalizedLagrangeBasis i))
  | .Pow e p => e.simplify.bind (fun se => FoldingCompatibleExpr.pow_to_mul se p)
  | .Extensions _ => none

/-- Denotation of a cell under an assignment: a `Constant` cell is its
own value, every other cell is read from the assignment. -/
def evalCol (env : ExtendedFoldingColumn Col Chal F → F) :
    ExtendedFoldingColumn Col Chal F → F
  | .Constant c => c
  | c => env c

/-- Denotation of a `FoldingExp` under an assignment of the cells. -/
def FoldingExp.eval [Field F] (env : ExtendedFoldingColumn Col Chal F → F) :
    FoldingExp Col Chal F → F
  | .Cell c => evalCol env c
  | .Double e => e.eval env + e.eval env
  | .Square e => e.eval env * e.eval env
  | .Add e1 e2 => e1.eval env + e2.eval env
  | .Sub e1 e2 => e1.eval env - e2.eval env
  | .Mul e1 e2 => e1.eval env * e2.eval env

end FoldingExprs

namespace Msm

/-- Modelled from the spec: `MAX_SUPPORTED_DEGREE` lives in the `msm`
crate root, outside the sources at hand; the comments in `logup.rs`
("chunks of 6 (MAX_SUPPORTED_DEGREE - 2)") and the assert message in
`combine_lookups` ("maximum degree supported (8)") fix its value to 8. -/
def MAX_SUPPORTED_DEGREE : Nat := 8

/-- `Logup`: one fractional term of the logup sum.  Table IDs are
modelled as `Nat` (`LookupTableID::to_u32`), mapped into the field by
`Nat.cast` (`LookupTableID::to_field`). -/
structure Logup (F : Type) where
  table_id : Nat
  numerator : F
  value : List F
deriving DecidableEq

/-- Default entry used to model Rust vector indexing; it is never
reached on inputs where every index is in bounds. -/
def defaultLogup (F : Type) [Field F] : Logup F :=
  { table_id := 0, numerator := 0, value := [] }

/-- `LogupWitness`: the looked-up columns (fixed table last), the
multiplicity column and the table ID. -/
structure LogupWitness (F : Type) where
  f : List (List (Logup F))
  m : List F
  table_id : Nat
deriving DecidableEq

/-- The Horner combination
`value.iter().rev().fold(0, |acc, y| acc * r + y) * r`,
that is `r * x_1 + r^2 * x_2 + ... + r^N * x_N`. -/
def combinedValue [Field F] (r : F) (value : List F) : F :=
  (value.reverse.foldl (fun acc y => acc * r + y) 0) * r

/-- The per-term denominator `β + (combined value + table_id)`. -/
def lookupDenominator [Field F] (r beta : F) (l : Logup F) : F :=
  beta + (combinedValue r l.value + (l.table_id : F))

/-- One row contribution `numerator * denominator⁻¹`.  `batch_inversion`
leaves zero denominators at zero, which agrees with `0⁻¹ = 0` in a Lean
field. -/
def logupTerm [Field F] (r beta : F) (l : Logup F) : F :=
  l.numerator * (lookupDenominator r beta l)⁻¹

/-- The terms of row `j`: one per looked-up column (the fixed table is
the last column of `f`). -/
def rowTerms [Field F] (r beta : F) (f : List (List (Logup F))) (j : Nat) : List F :=
  f.map (fun f_i => logupTerm r beta (f_i.getD j (defaultLogup F)))

/-- The chunking loop over one row: `row_acc` accumulates the terms and
is flushed every `cs` columns (`(i + 1) % cs == 0`); when the column
count is not a multiple of `cs` the leftover accumulator is flushed once
at the end (`n % cs != 0`, where the final counter value is `n`). -/
def psumsGo [Field F] (cs : Nat) : List F → Nat → F → List F
  | [], i, acc => if i % cs ≠ 0 then [acc] else []
  | t :: ts, i, acc =>
    if (i + 1) % cs = 0 then (acc + t) :: psumsGo cs ts (i + 1) 0
    else psumsGo cs ts (i + 1) (acc + t)

/-- The chunked sums of one row of terms. -/
def rowPSums [Field F] (cs : Nat) (terms : List F) : List F :=
  psumsGo cs terms 0 0

/-- Push one row of values onto the per-chunk columns
(`partial_sums[partial_sum_idx].push(row_acc)`). -/
def pushRow [Field F] (ps : List (List F)) (vals : List F) : List (List F) :=
  List.zipWith (fun col v => col ++ [v]) ps vals

/-- The number of chunk columns allocated for `n` looked-up columns. -/
def nPSums (n : Nat) : Nat :=
  if n % (MAX_SUPPORTED_DEGREE - 2) = 0 then n / (MAX_SUPPORTED_DEGREE - 2)
  else n / (MAX_SUPPORTED_DEGREE - 2) + 1

/-- The chunk columns of one `LogupWitness`: the rows are processed in
order and each row's chunked sums are pushed onto the columns. -/
def lookupPSums [Field F] (r beta : F) (dsize : Nat)
    (f : List (List (Logup F))) : List (List F) :=
  (List.range dsize).foldl
    (fun ps j => pushRow ps (rowPSums (MAX_SUPPORTED_DEGREE - 2) (rowTerms r beta f j)))
    (List.replicate (nPSums f.length) [])

/-- `BTreeMap` insert on a key-sorted association list: an existing
binding for the key is replaced. -/
def insertSorted {α : Type} : List (Nat × α) → Nat → α → List (Nat × α)
  | [], k, v => [(k, v)]
  | (k2, v2) :: rest, k, v =>
    if k < k2 then (k, v) :: (k2, v2) :: rest
    else if k = k2 then (k, v) :: rest
    else (k2, v2) :: insertSorted rest k v

/-- `fixed_lookup_tables.entry(id).or_insert_with(Vec::new).push(v)` on
the sorted association list model. -/
def mapPush [Field F] : List (Nat × List F) → Nat → F → List (Nat × List F)
  | [], k, v => [(k, [v])]
  | (k2, vs) :: rest, k, v =>
    if k < k2 then (k, [v]) :: (k2, vs) :: rest
    else if k = k2 then (k2, vs ++ [v]) :: rest
    else (k2, vs) :: mapPush rest k v

/-- The fixed-table collection of one lookup: for each row, the entry of
the last column is pushed (its first value component) when its table ID
is fixed. -/
def collectFixedTable [Field F] (isFixed : Nat → Bool) (dsize : Nat)
    (f : List (List (Logup F))) (acc : List (Nat × List F)) : List (Nat × List F) :=
  (List.range dsize).foldl
    (fun m j =>
      let entry := (f.getD (f.length - 1) []).getD j (defaultLogup F)
      if isFixed entry.table_id then mapPush m entry.table_id (entry.value.headD 0)
      else m)
    acc

/-- The table ID of the first entry of the first column,
`lookup.f[0][0].table_id`, used to key the multiplicity map. -/
def firstTid [Field F] (lw : LogupWitness F) : Nat :=
  ((lw.f.getD 0 []).getD 0 (defaultLogup F)).table_id

/-- The multiplicity evaluations `m(X)`, kept only for lookups into
fixed tables, collected into a `BTreeMap` keyed by the table ID. -/
def countersMap [Field F] (isFixed : Nat → Bool) (lookups : List (LogupWitness F)) :
    List (Nat × List F) :=
  (lookups.filter (fun lw => isFixed (firstTid lw))).foldl
    (fun m lw => insertSorted m (firstTid lw) lw.m) []

/-- The chunk columns and fixed tables of all lookups, processed in
input order: the chunk columns are keyed by the witness table ID
(`lookup_terms_map.insert(table_id, partial_sums)`) and the fixed-table
map accumulates across lookups. -/
def buildMaps [Field F] (isFixed : Nat → Bool) (r beta : F) (dsize : Nat)
    (lookups : List (LogupWitness F)) :
    List (Nat × List (List F)) × List (Nat × List F) :=
  lookups.foldl
    (fun st lw =>
      (insertSorted st.1 lw.table_id (lookupPSums r beta dsize lw.f),
       collectFixedTable isFixed dsize lw.f st.2))
    ([], [])

/-- One step of the aggregation accumulator: add every chunk column's
value at row `i`, over all tables in map order. -/
def aggregateStep [Field F] (terms : List (Nat × List (List F))) (i : Nat) (acc : F) : F :=
  terms.foldl (fun a kv => kv.2.foldl (fun a2 col => a2 + col.getD i 0) a) acc

/-- The running-sum column: the accumulator is pushed before being
updated with the row, so the first entry is zero and the value after the
last row is only checked, never stored. -/
def aggregation [Field F] (terms : List (Nat × List (List F))) (dsize : Nat) :
    List F × F :=
  (List.range dsize).foldl
    (fun st i => (st.1 ++ [st.2], aggregateStep terms i st.2))
    ([], 0)

/-- A sponge operation, recorded in the order the prover performs it. -/
inductive SpongeOp (C : Type) where
  | absorb (c : C)
  | squeeze
deriving DecidableEq

/-- The prover environment built by `Env::create` (the interpolations and
d8 evaluations, pure re-encodings of the data kept here, are omitted). -/
structure Env (F C : Type) where
  lookup_counters_comm_d1 : List (Nat × C)
  lookup_terms_map : List (Nat × List (List F))
  lookup_terms_comms_d1 : List (Nat × List C)
  fixed_lookup_tables : List (Nat × List F)
  fixed_lookup_tables_comms_d1 : List (Nat × C)
  lookup_aggregation_evals_d1 : List F
  lookup_aggregation_comm_d1 : C
  joint_combiner : F
  beta : F
deriving DecidableEq

/-- The multiplicity commitments, keyed by table ID. -/
def countersComms {C : Type} [Field F] (isFixed : Nat → Bool) (commit : List F → C)
    (lookups : List (LogupWitness F)) : List (Nat × C) :=
  (countersMap isFixed lookups).map (fun kv => (kv.1, commit kv.2))

/-- The sponge trace after absorbing every multiplicity commitment. -/
def multTrace {C : Type} [Field F] (isFixed : Nat → Bool) (commit : List F → C)
    (lookups : List (LogupWitness F)) : List (SpongeOp C) :=
  (countersComms isFixed commit lookups).map (fun kv => SpongeOp.absorb kv.2)

/-- The vector-lookup combiner, coined right after the multiplicity
commitments are absorbed. -/
def combinerOf {C : Type} [Field F] (isFixed : Nat → Bool) (commit : List F → C)
    (chal : List (SpongeOp C) → F) (lookups : List (LogupWitness F)) : F :=
  chal (multTrace isFixed commit lookups)

/-- The evaluation point `β`, coined right after the combiner. -/
def betaOf {C : Type} [Field F] (isFixed : Nat → Bool) (commit : List F → C)
    (chal : List (SpongeOp C) → F) (lookups : List (LogupWitness F)) : F :=
  chal (multTrace isFixed commit lookups ++ [SpongeOp.squeeze])

/-- The chunk-column map of `Env::create`, with the challenges drawn at
their place in the transcript. -/
def termsMapOf {C : Type} [Field F] (isFixed : Nat → Bool) (commit : List F → C)
    (chal : List (SpongeOp C) → F) (dsize : Nat) (lookups : List (LogupWitness F)) :
    List (Nat × List (List F)) :=
  (buildMaps isFixed (combinerOf isFixed commit chal lookups)
    (betaOf isFixed commit chal lookups) dsize lookups).1

/-- `Env::create`.  The commitment scheme and the sponge are abstract:
`commit` maps an evaluation vector to a commitment and `chal` draws a
challenge from the sequence of sponge operations performed so far.  The
returned trace records every absorb and squeeze in program order; the
assertion "Logup accumulator must be zero" is modelled by returning
`none`. -/
def Env.create {C : Type} [Field F] [DecidableEq F] (isFixed : Nat → Bool)
    (commit : List F → C) (chal : List (SpongeOp C) → F)
    (dsize : Nat) (lookups : List (LogupWitness F)) :
    Option (Env F C × List (SpongeOp C)) :=
  let lookup_counters_comm_d1 := countersComms isFixed commit lookups
  let trace0 := multTrace isFixed commit lookups
  let vector_lookup_combiner := combinerOf isFixed commit chal lookups
  let trace1 := trace0 ++ [SpongeOp.squeeze]
  let beta := betaOf isFixed commit chal lookups
  let trace2 := trace1 ++ [SpongeOp.squeeze]
  let maps := buildMaps isFixed vector_lookup_combiner beta dsize lookups
  let lookup_terms_comms_d1 := maps.1.map (fun kv => (kv.1, kv.2.map commit))
  let fixed_lookup_tables_comms_d1 := maps.2.map (fun kv => (kv.1, commit kv.2))
  let trace3 := trace2 ++
    (lookup_terms_comms_d1.map (fun kv => kv.2.map SpongeOp.absorb)).flatten
  let trace4 := trace3 ++
    fixed_lookup_tables_comms_d1.map (fun kv => SpongeOp.absorb kv.2)
  let agg := aggregation maps.1 dsize
  if agg.2 = 0 then
    let lookup_aggregation_comm_d1 := commit agg.1
    let trace5 := trace4 ++ [SpongeOp.absorb lookup_aggregation_comm_d1]
    some ({ lookup_counters_comm_d1 := lookup_counters_comm_d1
            lookup_terms_map := maps.1
            lookup_terms_comms_d1 := lookup_terms_comms_d1
            fixed_lookup_tables := maps.2
            fixed_lookup_tables_comms_d1 := fixed_lookup_tables_comms_d1
            lookup_aggregation_evals_d1 := agg.1
            lookup_aggregation_comm_d1 := lookup_aggregation_comm_d1
            joint_combiner := vector_lookup_combiner
            beta := beta }, trace5)
  else none

/-- The sum of the chunk columns at row `i`, over all tables. -/
def rowSumAt [Field F] (terms : List (Nat × List (List F))) (i : Nat) : F :=
  (terms.map (fun kv => (kv.2.map (fun col => col.getD i 0)).sum)).sum

/-- The partial sum of the first `j` row sums: the value `φ(ω^j)`. -/
def phiAt [Field F] (terms : List (Nat × List (List F))) (j : Nat) : F :=
  ((List.range j).map (fun i => rowSumAt terms i)).sum

end Msm

/-- The concrete prime field used for counterexamples and witnesses. -/
instance : Fact (Nat.Prime 5) := ⟨by norm_num⟩

/-- A field structure on `Fin 5` with a table-driven inverse, so that the
prover model evaluates inside the kernel on concrete inputs. -/
instance : Field (Fin 5) where
  __ := inferInstanceAs (CommRing (Fin 5))
  inv := ![0, 1, 3, 2, 4]
  div a b := a * ![0, 1, 3, 2, 4] b
  nnqsmul := _
  qsmul := _
  exists_pair_ne := ⟨0, 1, by decide⟩
  mul_inv_cancel := by decide
  inv_zero := by decide
  div_eq_mul_inv := by decide

section FoldingHelpers

variable {F G I W : Type}

lemma zipWith_getD {α β γ : Type} (g : α → β → γ) :
    ∀ (as' : List α) (bs : List β) (k : Nat) (da : α) (db : β) (dc : γ),
      k < min as'.length bs.length →
      (List.zipWith g as' bs).getD k dc = g (as'.getD k da) (bs.getD k db)
  | [], _, k, _, _, _, h => by simp at h
  | _ :: _, [], k, _, _, _, h => by simp at h
  | a :: as', b :: bs, 0, da, db, dc, h => by simp
  | a :: as', b :: bs, k + 1, da, db, dc, h => by
    simpa using zipWith_getD g as' bs k da db dc (by simp at h; omega)

lemma map_getD {α β : Type} (g : α → β) :
    ∀ (l : List α) (k : Nat) (da : α) (db : β), k < l.length →
      (l.map g).getD k db = g (l.getD k da)
  | [], k, _, _, h => by simp at h
  | a :: l, 0, da, db, h => by simp
  | a :: l, k + 1, da, db, h => by
    simpa using map_getD g l k da db (by simp at h; omega)

lemma addScaled_cons [Field F] (x y : F) (a b : List F) (r : F) :
    Folding.addScaled (x :: a) (y :: b) r = (x + y * r) :: Folding.addScaled a b r := by
  simp [Folding.addScaled]

lemma addScaled_getD [Field F] :
    ∀ (a b : List F) (r : F) (i : Nat), i < a.length → i < b.length →
      (Folding.addScaled a b r).getD i 0 = a.getD i 0 + b.getD i 0 * r
  | [], _, _, i, h, _ => by simp at h
  | _ :: _, [], _, i, _, h => by simp at h
  | x :: a, y :: b, r, 0, _, _ => by simp [addScaled_cons]
  | x :: a, y :: b, r, i + 1, h1, h2 => by
    rw [addScaled_cons]
    simpa using addScaled_getD a b r i (by simp at h1; omega) (by simp at h2; omega)

lemma subErrVec_cons [Field F] (x y0 y1 : F) (a e0 e1 : List F) (r : F) :
    Folding.subErrVec (x :: a) (y0 :: e0) (y1 :: e1) r =
      (x - ((y1 * r + y0) * r)) :: Folding.subErrVec a e0 e1 r := by
  simp [Folding.subErrVec]

lemma subErrVec_getD [Field F] :
    ∀ (a e0 e1 : List F) (r : F) (i : Nat), i < a.length → i < e0.length → i < e1.length →
      (Folding.subErrVec a e0 e1 r).getD i 0 =
        a.getD i 0 - ((e1.getD i 0 * r + e0.getD i 0) * r)
  | [], _, _, _, i, h, _, _ => by simp at h
  | _ :: _, [], _, _, i, _, h, _ => by simp at h
  | _ :: _, _ :: _, [], _, i, _, _, h => by simp at h
  | x :: a, y0 :: e0, y1 :: e1, r, 0, _, _, _ => by simp [subErrVec_cons]
  | x :: a, y0 :: e0, y1 :: e1, r, i + 1, h1, h2, h3 => by
    rw [subErrVec_cons]
    simpa using subErrVec_getD a e0 e1 r i
      (by simp at h1; omega) (by simp at h2; omega) (by simp at h3; omega)

lemma zipExtAssert_isSome_iff [Field F] :
    ∀ (xs ys : List (Nat × List F)) (r : F),
      (Folding.zipExtAssert xs ys r).isSome ↔
        ∀ k, k < min xs.length ys.length →
          (xs.getD k (0, [])).1 = (ys.getD k (0, [])).1
  | [], ys, r => by simp [Folding.zipExtAssert]
  | x :: xs, [], r => by simp [Folding.zipExtAssert]
  | (i, ea) :: xs, (j, eb) :: ys, r => by
    by_cases hij : i = j
    · subst hij
      simp only [Folding.zipExtAssert, if_pos rfl, if_true, Option.isSome_map']
      rw [zipExtAssert_isSome_iff xs ys r]
      constructor
      · intro h k hk
        match k with
        | 0 => simp
        | k + 1 =>
          simpa using h k (by simp at hk; omega)
      · intro h k hk
        simpa using h (k + 1) (by simp; omega)
    · simp only [Folding.zipExtAssert, if_neg hij]
      constructor
      · intro h; simp at h
      · intro h
        exact absurd (h 0 (by simp)) (by simpa using hij)

lemma zipExtAssert_some_spec [Field F] :
    ∀ (xs ys : List (Nat × List F)) (r : F) (zs : List (Nat × List F)),
      Folding.zipExtAssert xs ys r = some zs →
      zs.length = min xs.length ys.length ∧
      ∀ k, k < min xs.length ys.length →
        zs.getD k (0, []) =
          ((xs.getD k (0, [])).1,
           Folding.addScaled (xs.getD k (0, [])).2 (ys.getD k (0, [])).2 r)
  | [], ys, r, zs => by
    intro h
    simp [Folding.zipExtAssert] at h
    subst h; simp
  | x :: xs, [], r, zs => by
    intro h
    simp [Folding.zipExtAssert] at h
    subst h; simp
  | (i, ea) :: xs, (j, eb) :: ys, r, zs => by
    intro h
    by_cases hij : i = j
    · subst hij
      simp only [Folding.zipExtAssert, if_pos rfl, if_true] at h
      rcases Option.map_eq_some'.mp h with ⟨rest, hrest, hz⟩
      rcases zipExtAssert_some_spec xs ys r rest hrest with ⟨hlen, hget⟩
      subst hz
      constructor
      · simp [hlen]; omega
      · intro k hk
        match k with
        | 0 => simp
        | k + 1 =>
          simpa using hget k (by simp at hk; omega)
    · simp [Folding.zipExtAssert, if_neg hij] at h

end FoldingHelpers

/-- C9: `Instance::relax` on a plain instance yields slack `u = 1`, the
given zero commitment as error commitment, and the base instance wrapped
with an empty extended-column list; `Witness::relax` yields the given
all-zero vector as error vector and an empty extended-column map. -/
theorem relax_fresh_instance_witness_spec {F G I W : Type} [Field F]
    (x : I) (zc : Folding.PolyComm G) (w : W) (zp : List F) :
    (Folding.Instance.relax x zc : Folding.RelaxedInstance I G F).u = 1 ∧
    (Folding.Instance.relax x zc : Folding.RelaxedInstance I G F).error_commitment = zc ∧
    (Folding.Instance.relax x zc : Folding.RelaxedInstance I G F).extended_instance.inst = x ∧
    (Folding.Instance.relax x zc : Folding.RelaxedInstance I G F).extended_instance.extended
      = [] ∧
    (Folding.Witness.relax w zp : Folding.RelaxedWitness W F).error_vec = zp ∧
    (Folding.Witness.relax w zp : Folding.RelaxedWitness W F).extended_witness.witness = w ∧
    (Folding.Witness.relax w zp : Folding.RelaxedWitness W F).extended_witness.extended = [] :=
  ⟨rfl, rfl, rfl, rfl, rfl, rfl, rfl⟩

/-- C5: relaxing an already relaxed instance or witness returns it
unchanged, the zero-commitment / zero-polynomial arguments being
ignored; in particular `relax (relax x) = relax x`. -/
theorem relax_idempotent_spec {F G I W : Type} [Field F]
    (x : I) (w : W) (zc zc2 : Folding.PolyComm G) (zp zp2 : List F)
    (ri : Folding.RelaxedInstance I G F) (rw : Folding.RelaxedWitness W F) :
    Folding.RelaxedInstance.relax ri zc = ri ∧
    Folding.RelaxedWitness.relax rw zp = rw ∧
    Folding.RelaxedInstance.relax (Folding.Instance.relax x zc) zc2
      = (Folding.Instance.relax x zc : Folding.RelaxedInstance I G F) ∧
    Folding.RelaxedWitness.relax (Folding.Witness.relax w zp) zp2
      = (Folding.Witness.relax w zp : Folding.RelaxedWitness W F) :=
  ⟨rfl, rfl, rfl, rfl⟩

/-- C1, counterexample: the error commitment of
`RelaxedInstance::combine` is not the affine combination
`commit_a + r * commit_b`; at `r = 2` over `ZMod 5` with unit error
commitments, the code yields `1 + 2^3 = 4` while the claim's formula
yields `1 + 2 = 3`. -/
theorem relaxedInstance_combine_error_commitment_not_affine :
    (Folding.RelaxedInstance.combine (fun _ _ _ => ())
        (⟨⟨(), []⟩, 1, ⟨[(1 : ZMod 5)]⟩⟩ : Folding.RelaxedInstance Unit (ZMod 5) (ZMod 5))
        (⟨⟨(), []⟩, 1, ⟨[(1 : ZMod 5)]⟩⟩ : Folding.RelaxedInstance Unit (ZMod 5) (ZMod 5))
        2).error_commitment ≠
      Folding.PolyComm.add (⟨[(1 : ZMod 5)]⟩ : Folding.PolyComm (ZMod 5))
        (Folding.PolyComm.scale (2 : ZMod 5) (⟨[(1 : ZMod 5)]⟩ : Folding.PolyComm (ZMod 5))) :=
  by decide

/-- C1 (amended): `combine` is the affine combination `a + r·b` on every
component except the error terms: the slack is `u_a + r·u_b`, extended
commitments combine as `commit_a + r·commit_b`, extended witness columns
pointwise as `a_i + r·b_i`, while the error commitment and the error
vector combine with the cube of the challenge, `e_a + r³·e_b`. -/
theorem relaxed_combine_affine_except_error_cubed {F G I W : Type} [Field F]
    [AddCommGroup G] [SMul F G] (combI : I → I → F → I) (combW : W → W → F → W)
    (a b : Folding.RelaxedInstance I G F) (aw bw : Folding.RelaxedWitness W F) (r : F) :
    (Folding.RelaxedInstance.combine combI a b r).u = a.u + r * b.u ∧
    (Folding.RelaxedInstance.combine combI a b r).extended_instance.inst
      = combI a.extended_instance.inst b.extended_instance.inst r ∧
    (∀ k, k < min a.extended_instance.extended.length b.extended_instance.extended.length →
      (Folding.RelaxedInstance.combine combI a b r).extended_instance.extended.getD k ⟨[]⟩
        = Folding.PolyComm.add (a.extended_instance.extended.getD k ⟨[]⟩)
            (Folding.PolyComm.scale r (b.extended_instance.extended.getD k ⟨[]⟩))) ∧
    (Folding.RelaxedInstance.combine combI a b r).error_commitment
      = Folding.PolyComm.add a.error_commitment
          (Folding.PolyComm.scale (r * r * r) b.error_commitment) ∧
    (∀ w, Folding.RelaxedWitness.combine combW aw bw r = some w →
      (∀ i, i < aw.error_vec.length → i < bw.error_vec.length →
        w.error_vec.getD i 0
          = aw.error_vec.getD i 0 + bw.error_vec.getD i 0 * (r * r * r)) ∧
      (∀ k, k < min aw.extended_witness.extended.length bw.extended_witness.extended.length →
        ∀ i, i < (aw.extended_witness.extended.getD k (0, [])).2.length →
          i < (bw.extended_witness.extended.getD k (0, [])).2.length →
          (w.extended_witness.extended.getD k (0, [])).2.getD i 0
            = (aw.extended_witness.extended.getD k (0, [])).2.getD i 0
              + (bw.extended_witness.extended.getD k (0, [])).2.getD i 0 * r)) := by
  refine ⟨?_, rfl, ?_, rfl, ?_⟩
  · show a.u + b.u * r = a.u + r * b.u
    ring
  · intro k hk
    exact zipWith_getD _ _ _ k (⟨[]⟩ : Folding.PolyComm G) (⟨[]⟩ : Folding.PolyComm G)
      (⟨[]⟩ : Folding.PolyComm G) hk
  · intro w hw
    rcases Option.map_eq_some'.mp hw with ⟨ew, hew, hwdef⟩
    rcases Option.map_eq_some'.mp hew with ⟨zs, hzs, hewdef⟩
    rcases zipExtAssert_some_spec _ _ _ _ hzs with ⟨hlen, hget⟩
    constructor
    · intro i hi1 hi2
      rw [← hwdef]
      exact addScaled_getD _ _ _ i hi1 hi2
    · intro k hk i hi1 hi2
      rw [← hwdef]
      show (ew.extended.getD k (0, [])).2.getD i 0 = _
      rw [← hewdef]
      show (zs.getD k (0, [])).2.getD i 0 = _
      rw [hget k hk]
      exact addScaled_getD _ _ _ i hi1 hi2

/-- C1 witness: the amended combination law evaluated at a concrete
input over `ZMod 5`. -/
theorem relaxed_combine_affine_except_error_cubed_witness :
    (Folding.RelaxedInstance.combine (fun _ _ _ => ())
        (⟨⟨(), [⟨[2]⟩]⟩, 1, ⟨[1]⟩⟩ : Folding.RelaxedInstance Unit (ZMod 5) (ZMod 5))
        (⟨⟨(), [⟨[3]⟩]⟩, 1, ⟨[2]⟩⟩ : Folding.RelaxedInstance Unit (ZMod 5) (ZMod 5))
        2).extended_instance.extended.getD 0 ⟨[]⟩
      = Folding.PolyComm.add
          ((⟨⟨(), [⟨[2]⟩]⟩, 1, ⟨[1]⟩⟩ :
            Folding.RelaxedInstance Unit (ZMod 5) (ZMod 5)).extended_instance.extended.getD 0
              ⟨[]⟩)
          (Folding.PolyComm.scale 2
            ((⟨⟨(), [⟨[3]⟩]⟩, 1, ⟨[2]⟩⟩ :
              Folding.RelaxedInstance Unit (ZMod 5) (ZMod 5)).extended_instance.extended.getD 0
                ⟨[]⟩)) ∧
    (⟨⟨(), [(0, [0])]⟩, [3]⟩ : Folding.RelaxedWitness Unit (ZMod 5)).error_vec.getD 0 0
      = (⟨⟨(), [(0, [1])]⟩, [4]⟩ :
          Folding.RelaxedWitness Unit (ZMod 5)).error_vec.getD 0 0
        + (⟨⟨(), [(0, [2])]⟩, [3]⟩ :
            Folding.RelaxedWitness Unit (ZMod 5)).error_vec.getD 0 0 * (2 * 2 * 2) := by
  have h := relaxed_combine_affine_except_error_cubed
    (fun _ _ _ => ()) (fun _ _ _ => ())
    (⟨⟨(), [⟨[2]⟩]⟩, 1, ⟨[1]⟩⟩ : Folding.RelaxedInstance Unit (ZMod 5) (ZMod 5))
    (⟨⟨(), [⟨[3]⟩]⟩, 1, ⟨[2]⟩⟩ : Folding.RelaxedInstance Unit (ZMod 5) (ZMod 5))
    (⟨⟨(), [(0, [1])]⟩, [4]⟩ : Folding.RelaxedWitness Unit (ZMod 5))
    (⟨⟨(), [(0, [2])]⟩, [3]⟩ : Folding.RelaxedWitness Unit (ZMod 5)) 2
  refine ⟨h.2.2.1 0 (by decide), ?_⟩
  exact (h.2.2.2.2 (⟨⟨(), [(0, [0])]⟩, [3]⟩ : Folding.RelaxedWitness Unit (ZMod 5))
    (by decide)).1 0 (by decide) (by decide)

/-- C2: `combine_and_sub_error` equals `combine` followed by subtracting
`r·e0 + r²·e1`: on the error commitment (`e0` scaled by `r` plus `e1`
scaled by `r²`) for instances, pointwise on the error vector for
witnesses, every other field being that of the plain `combine` result. -/
theorem combine_and_sub_error_subtracts_weighted_errors {F G I W : Type} [Field F]
    [AddCommGroup G] [SMul F G] (combI : I → I → F → I) (combW : W → W → F → W)
    (a b : Folding.RelaxedInstance I G F) (aw bw : Folding.RelaxedWitness W F)
    (r : F) (e0 e1 : Folding.PolyComm G) (f0 f1 : List F) :
    (Folding.RelaxedInstance.combine_and_sub_error combI a b r e0 e1).u
      = (Folding.RelaxedInstance.combine combI a b r).u ∧
    (Folding.RelaxedInstance.combine_and_sub_error combI a b r e0 e1).extended_instance
      = (Folding.RelaxedInstance.combine combI a b r).extended_instance ∧
    (Folding.RelaxedInstance.combine_and_sub_error combI a b r e0 e1).error_commitment
      = Folding.PolyComm.sub (Folding.RelaxedInstance.combine combI a b r).error_commitment
          (Folding.PolyComm.add (Folding.PolyComm.scale r e0)
            (Folding.PolyComm.scale (r * r) e1)) ∧
    (∀ k, k < (Folding.RelaxedInstance.combine combI a b r).error_commitment.elems.length →
      k < e0.elems.length → k < e1.elems.length →
      (Folding.RelaxedInstance.combine_and_sub_error combI a b r
          e0 e1).error_commitment.elems.getD k 0
        = (Folding.RelaxedInstance.combine combI a b r).error_commitment.elems.getD k 0
          - (r • e0.elems.getD k 0 + (r * r) • e1.elems.getD k 0)) ∧
    (∀ w, Folding.RelaxedWitness.combine combW aw bw r = some w →
      Folding.RelaxedWitness.combine_and_sub_error combW aw bw r f0 f1
        = some (Folding.RelaxedWitness.sub_error w f0 f1 r) ∧
      (Folding.RelaxedWitness.sub_error w f0 f1 r).extended_witness = w.extended_witness ∧
      ∀ i, i < w.error_vec.length → i < f0.length → i < f1.length →
        (Folding.RelaxedWitness.sub_error w f0 f1 r).error_vec.getD i 0
          = w.error_vec.getD i 0 - (r * f0.getD i 0 + r * r * f1.getD i 0)) := by
  refine ⟨rfl, rfl, rfl, ?_, ?_⟩
  · intro k h1 h2 h3
    show (Folding.PolyComm.sub _ _).elems.getD k 0 = _
    unfold Folding.PolyComm.sub Folding.PolyComm.add Folding.PolyComm.scale
    rw [zipWith_getD _ _ _ k 0 0 0
      (by simpa using ⟨h1, by simpa using h2, by simpa using h3⟩)]
    rw [zipWith_getD _ _ _ k 0 0 0 (by simp; omega)]
    rw [map_getD _ _ k 0 0 h2, map_getD _ _ k 0 0 h3]
  · intro w hw
    refine ⟨?_, rfl, ?_⟩
    · show (Folding.RelaxedWitness.combine combW aw bw r).map _ = _
      rw [hw, Option.map_some']
    · intro i h1 h2 h3
      show (Folding.subErrVec w.error_vec f0 f1 r).getD i 0 = _
      rw [subErrVec_getD _ _ _ _ i h1 h2 h3]
      ring

/-- C2 witness: the subtraction law evaluated at a concrete input over
`ZMod 5`. -/
theorem combine_and_sub_error_subtracts_weighted_errors_witness :
    (Folding.RelaxedInstance.combine_and_sub_error (fun _ _ _ => ())
        (⟨⟨(), []⟩, 1, ⟨[1]⟩⟩ : Folding.RelaxedInstance Unit (ZMod 5) (ZMod 5))
        (⟨⟨(), []⟩, 1, ⟨[4]⟩⟩ : Folding.RelaxedInstance Unit (ZMod 5) (ZMod 5))
        2 ⟨[1]⟩ ⟨[2]⟩).error_commitment.elems.getD 0 0
      = (Folding.RelaxedInstance.combine (fun _ _ _ => ())
          (⟨⟨(), []⟩, 1, ⟨[1]⟩⟩ : Folding.RelaxedInstance Unit (ZMod 5) (ZMod 5))
          (⟨⟨(), []⟩, 1, ⟨[4]⟩⟩ : Folding.RelaxedInstance Unit (ZMod 5) (ZMod 5))
          2).error_commitment.elems.getD 0 0
        - ((2 : ZMod 5) • ((⟨[1]⟩ : Folding.PolyComm (ZMod 5)).elems.getD 0 0)
           + ((2 : ZMod 5) * 2) • ((⟨[2]⟩ : Folding.PolyComm (ZMod 5)).elems.getD 0 0)) ∧
    (Folding.RelaxedWitness.sub_error
        (⟨⟨(), []⟩, [0]⟩ : Folding.RelaxedWitness Unit (ZMod 5)) [1] [2] 2).error_vec.getD 0 0
      = (⟨⟨(), []⟩, [0]⟩ : Folding.RelaxedWitness Unit (ZMod 5)).error_vec.getD 0 0
        - ((2 : ZMod 5) * List.getD [1] 0 0 + (2 : ZMod 5) * 2 * List.getD [2] 0 0) := by
  have h := combine_and_sub_error_subtracts_weighted_errors
    (fun _ _ _ => ()) (fun _ _ _ => ())
    (⟨⟨(), []⟩, 1, ⟨[1]⟩⟩ : Folding.RelaxedInstance Unit (ZMod 5) (ZMod 5))
    (⟨⟨(), []⟩, 1, ⟨[4]⟩⟩ : Folding.RelaxedInstance Unit (ZMod 5) (ZMod 5))
    (⟨⟨(), []⟩, [1]⟩ : Folding.RelaxedWitness Unit (ZMod 5))
    (⟨⟨(), []⟩, [3]⟩ : Folding.RelaxedWitness Unit (ZMod 5))
    2 ⟨[1]⟩ ⟨[2]⟩ [1] [2]
  refine ⟨h.2.2.2.1 0 (by decide) (by decide) (by decide), ?_⟩
  exact (h.2.2.2.2 (⟨⟨(), []⟩, [0]⟩ : Folding.RelaxedWitness Unit (ZMod 5))
    (by decide)).2.2 0 (by decide) (by decide) (by decide)

/-- C4, counterexample: combining two sides whose extended-column counts
differ does not abort; `ExtendedWitness::combine` returns a value (the
extra column of the longer side is silently dropped) and so does
`ExtendedInstance::combine`. -/
theorem extended_combine_count_mismatch_returns_value :
    Folding.ExtendedWitness.combine ((fun _ _ _ => ()) : Unit → Unit → ZMod 5 → Unit)
        (⟨(), [(0, [1])]⟩ : Folding.ExtendedWitness Unit (ZMod 5))
        (⟨(), []⟩ : Folding.ExtendedWitness Unit (ZMod 5)) 2
      = some (⟨(), []⟩ : Folding.ExtendedWitness Unit (ZMod 5)) ∧
    (Folding.ExtendedInstance.combine ((fun _ _ _ => ()) : Unit → Unit → ZMod 5 → Unit)
        (⟨(), [⟨[1]⟩]⟩ : Folding.ExtendedInstance Unit (ZMod 5))
        (⟨(), []⟩ : Folding.ExtendedInstance Unit (ZMod 5)) 2).extended
      = [] := by
  exact ⟨rfl, rfl⟩

/-- C4 (amended): the combine operations never abort on a mere count
mismatch — `ExtendedInstance::combine` and `ExtendedWitness::combine`
truncate to the shorter side, `ExtendedWitness::combine` aborting only
when a zipped pair carries different column indices — while
`RelaxedInstance::to_absorb` does abort whenever the error commitment
does not have exactly one element. -/
theorem extended_combine_truncates_and_to_absorb_asserts {F G I W : Type} [Field F]
    [AddCommGroup G] [SMul F G] (combI : I → I → F → I) (combW : W → W → F → W)
    (a b : Folding.ExtendedInstance I G) (aw bw : Folding.ExtendedWitness W F) (r : F)
    (absI : I → List F × List G) (ri : Folding.RelaxedInstance I G F) :
    (Folding.ExtendedInstance.combine combI a b r).extended.length
      = min a.extended.length b.extended.length ∧
    ((Folding.ExtendedWitness.combine combW aw bw r).isSome ↔
      ∀ k, k < min aw.extended.length bw.extended.length →
        (aw.extended.getD k (0, [])).1 = (bw.extended.getD k (0, [])).1) ∧
    (∀ w, Folding.ExtendedWitness.combine combW aw bw r = some w →
      w.extended.length = min aw.extended.length bw.extended.length) ∧
    (ri.error_commitment.elems.length ≠ 1 →
      Folding.RelaxedInstance.to_absorb absI ri = none) := by
  refine ⟨?_, ?_, ?_, ?_⟩
  · simp [Folding.ExtendedInstance.combine]
  · rw [show (Folding.ExtendedWitness.combine combW aw bw r).isSome
        = (Folding.zipExtAssert aw.extended bw.extended r).isSome from
          Option.isSome_map']
    exact zipExtAssert_isSome_iff _ _ _
  · intro w hw
    rcases Option.map_eq_some'.mp hw with ⟨zs, hzs, hwdef⟩
    rw [← hwdef]
    exact (zipExtAssert_some_spec _ _ _ _ hzs).1
  · intro hlen
    unfold Folding.RelaxedInstance.to_absorb
    rcases hb : Folding.ExtendedInstance.to_absorb absI ri.extended_instance with _ | e
    · simp
    · rcases he : ri.error_commitment.elems with _ | ⟨g, _ | ⟨g2, rest⟩⟩
      · simp [he]
      · exact absurd (by simp [he]) hlen
      · simp [he]

/-- C4 witness: a key mismatch does abort `ExtendedWitness::combine`,
and `to_absorb` aborts on an empty error commitment, at concrete inputs
over `ZMod 5`. -/
theorem extended_combine_truncates_and_to_absorb_asserts_witness :
    Folding.ExtendedWitness.combine ((fun _ _ _ => ()) : Unit → Unit → ZMod 5 → Unit)
        (⟨(), [(0, [1])]⟩ : Folding.ExtendedWitness Unit (ZMod 5))
        (⟨(), [(1, [2])]⟩ : Folding.ExtendedWitness Unit (ZMod 5)) 2 = none ∧
    Folding.RelaxedInstance.to_absorb (fun _ => ([], []))
        (⟨⟨(), []⟩, 1, ⟨[]⟩⟩ : Folding.RelaxedInstance Unit (ZMod 5) (ZMod 5)) = none := by
  have h := extended_combine_truncates_and_to_absorb_asserts
    ((fun _ _ _ => ()) : Unit → Unit → ZMod 5 → Unit)
    ((fun _ _ _ => ()) : Unit → Unit → ZMod 5 → Unit)
    (⟨(), []⟩ : Folding.ExtendedInstance Unit (ZMod 5))
    (⟨(), []⟩ : Folding.ExtendedInstance Unit (ZMod 5))
    (⟨(), [(0, [1])]⟩ : Folding.ExtendedWitness Unit (ZMod 5))
    (⟨(), [(1, [2])]⟩ : Folding.ExtendedWitness Unit (ZMod 5)) 2
    (fun _ => ([], []))
    (⟨⟨(), []⟩, 1, ⟨[]⟩⟩ : Folding.RelaxedInstance Unit (ZMod 5) (ZMod 5))
  constructor
  · have hnot : ¬ (Folding.ExtendedWitness.combine
        ((fun _ _ _ => ()) : Unit → Unit → ZMod 5 → Unit)
        (⟨(), [(0, [1])]⟩ : Folding.ExtendedWitness Unit (ZMod 5))
        (⟨(), [(1, [2])]⟩ : Folding.ExtendedWitness Unit (ZMod 5)) 2).isSome := by
      rw [h.2.1]
      intro hall
      exact absurd (hall 0 (by decide)) (by decide)
    exact Option.not_isSome_iff_eq_none.mp hnot
  · exact h.2.2.2 (by decide)

/-- C8: for an integer exponent between 2 and 8, `pow_to_mul` rewrites a
power into multiplications and squarings whose denotation is `e^p` under
every assignment, for every exponent above 8 it panics, and `simplify`
routes `Pow(e, p)` through `pow_to_mul` on the simplified base. -/
theorem pow_to_mul_correct {Col Chal F : Type} [Field F]
    (e : FoldingExprs.FoldingExp Col Chal F) (p : Nat)
    (env : FoldingExprs.ExtendedFoldingColumn Col Chal F → F)
    (ce : FoldingExprs.FoldingCompatibleExpr Col Chal F) :
    (2 ≤ p → p ≤ 8 → ∃ e2, FoldingExprs.FoldingCompatibleExpr.pow_to_mul e p = some e2 ∧
      e2.eval env = (e.eval env) ^ p) ∧
    (8 < p → FoldingExprs.FoldingCompatibleExpr.pow_to_mul e p = none) ∧
    FoldingExprs.FoldingCompatibleExpr.simplify (.Pow ce p)
      = ce.simplify.bind (fun se => FoldingExprs.FoldingCompatibleExpr.pow_to_mul se p) := by
  refine ⟨?_, ?_, rfl⟩
  · intro h2 h8
    interval_cases p
    · exact ⟨_, rfl, by simp [FoldingExprs.FoldingExp.eval]; ring⟩
    · exact ⟨_, rfl, by simp [FoldingExprs.FoldingExp.eval]; ring⟩
    · exact ⟨_, rfl, by simp [FoldingExprs.FoldingExp.eval]; ring⟩
    · exact ⟨_, rfl, by simp [FoldingExprs.FoldingExp.eval]; ring⟩
    · exact ⟨_, rfl, by simp [FoldingExprs.FoldingExp.eval]; ring⟩
    · exact ⟨_, rfl, by simp [FoldingExprs.FoldingExp.eval]; ring⟩
    · exact ⟨_, rfl, by simp [FoldingExprs.FoldingExp.eval]; ring⟩
  · intro h
    obtain ⟨q, rfl⟩ : ∃ q, p = q + 9 := ⟨p - 9, by omega⟩
    rfl

/-- C8 witness: the rewriting evaluated at the exponent 3 on a concrete
expression over `ZMod 5`, and the panic at exponent 9. -/
theorem pow_to_mul_correct_witness :
    FoldingExprs.FoldingCompatibleExpr.pow_to_mul
        (FoldingExprs.FoldingExp.Cell (.Inner ()) : FoldingExprs.FoldingExp Unit Unit (ZMod 5))
        9 = none ∧
    FoldingExprs.FoldingExp.eval (fun _ => 2)
        (FoldingExprs.FoldingExp.Mul (.Cell (.Inner ()))
          (.Square (.Cell (.Inner ()))) : FoldingExprs.FoldingExp Unit Unit (ZMod 5))
      = (FoldingExprs.FoldingExp.eval (fun _ => 2)
          (FoldingExprs.FoldingExp.Cell (.Inner ()) :
            FoldingExprs.FoldingExp Unit Unit (ZMod 5))) ^ 3 := by
  have h9 := pow_to_mul_correct
    (FoldingExprs.FoldingExp.Cell (.Inner ()) : FoldingExprs.FoldingExp Unit Unit (ZMod 5))
    9 (fun _ => 2) .VanishesOnZeroKnowledgeAndPreviousRows
  have h3 := pow_to_mul_correct
    (FoldingExprs.FoldingExp.Cell (.Inner ()) : FoldingExprs.FoldingExp Unit Unit (ZMod 5))
    3 (fun _ => 2) .VanishesOnZeroKnowledgeAndPreviousRows
  refine ⟨h9.2.1 (by omega), ?_⟩
  rcases h3.1 (by omega) (by omega) with ⟨e2, he, hv⟩
  have heq : e2 = FoldingExprs.FoldingExp.Mul (.Cell (.Inner ()))
      (.Square (.Cell (.Inner ()))) := by
    have hr : FoldingExprs.FoldingCompatibleExpr.pow_to_mul
        (FoldingExprs.FoldingExp.Cell (.Inner ()) : FoldingExprs.FoldingExp Unit Unit (ZMod 5))
        3 = some (FoldingExprs.FoldingExp.Mul (.Cell (.Inner ()))
          (.Square (.Cell (.Inner ())))) := rfl
    injection he.symm.trans hr
  rw [← heq]
  exact hv

/-- C10: for every exponent outside `2..=8` — in particular 0 and 1 —
`pow_to_mul` panics instead of returning an expression, and so does
`simplify` on such a `Pow` node. -/
theorem pow_to_mul_panics_outside_two_eight {Col Chal F : Type} [Field F]
    (e : FoldingExprs.FoldingExp Col Chal F)
    (ce : FoldingExprs.FoldingCompatibleExpr Col Chal F) (p : Nat)
    (h : p < 2 ∨ 8 < p) :
    FoldingExprs.FoldingCompatibleExpr.pow_to_mul e p = none ∧
    FoldingExprs.FoldingCompatibleExpr.simplify (.Pow ce p) = none := by
  have hnone : ∀ (x : FoldingExprs.FoldingExp Col Chal F),
      FoldingExprs.FoldingCompatibleExpr.pow_to_mul x p = none := by
    intro x
    rcases h with h | h
    · interval_cases p
      · rfl
      · rfl
    · obtain ⟨q, rfl⟩ : ∃ q, p = q + 9 := ⟨p - 9, by omega⟩
      rfl
  refine ⟨hnone e, ?_⟩
  show ce.simplify.bind _ = none
  cases hce : ce.simplify with
  | none => rfl
  | some se => simpa using hnone se

/-- C10 witness: the panic at exponents 0 and 1 on concrete expressions
over `ZMod 5`. -/
theorem pow_to_mul_panics_outside_two_eight_witness :
    FoldingExprs.FoldingCompatibleExpr.pow_to_mul
        (FoldingExprs.FoldingExp.Cell (.Inner ()) : FoldingExprs.FoldingExp Unit Unit (ZMod 5))
        0 = none ∧
    FoldingExprs.FoldingCompatibleExpr.pow_to_mul
        (FoldingExprs.FoldingExp.Cell (.Inner ()) : FoldingExprs.FoldingExp Unit Unit (ZMod 5))
        1 = none ∧
    FoldingExprs.FoldingCompatibleExpr.simplify
        (.Pow (.Cell ()) 1 : FoldingExprs.FoldingCompatibleExpr Unit Unit (ZMod 5)) = none := by
  refine ⟨?_, ?_, ?_⟩
  · exact (pow_to_mul_panics_outside_two_eight _
      (.VanishesOnZeroKnowledgeAndPreviousRows :
        FoldingExprs.FoldingCompatibleExpr Unit Unit (ZMod 5)) 0 (by omega)).1
  · exact (pow_to_mul_panics_outside_two_eight _
      (.VanishesOnZeroKnowledgeAndPreviousRows :
        FoldingExprs.FoldingCompatibleExpr Unit Unit (ZMod 5)) 1 (by omega)).1
  · exact (pow_to_mul_panics_outside_two_eight
      (FoldingExprs.FoldingExp.Cell (.Inner ()) : FoldingExprs.FoldingExp Unit Unit (ZMod 5))
      (.Cell ()) 1 (by omega)).2

section MsmHelpers

variable {F : Type}

lemma psumsGo_mod [Field F] : ∀ (ts : List F) (i : Nat) (acc : F),
    Msm.psumsGo 6 ts i acc = Msm.psumsGo 6 ts (i % 6) acc
  | [], i, acc => by
    have h : i % 6 % 6 = i % 6 := by omega
    simp only [Msm.psumsGo, h]
  | t :: ts, i, acc => by
    have h1 : (i + 1) % 6 = (i % 6 + 1) % 6 := by omega
    by_cases h : (i + 1) % 6 = 0
    · simp only [Msm.psumsGo, if_pos h, if_pos (show (i % 6 + 1) % 6 = 0 by omega)]
      rw [psumsGo_mod ts (i + 1) 0, psumsGo_mod ts (i % 6 + 1) 0, h1]
    · simp only [Msm.psumsGo, if_neg h, if_neg (show ¬ (i % 6 + 1) % 6 = 0 by omega)]
      rw [psumsGo_mod ts (i + 1) (acc + t), psumsGo_mod ts (i % 6 + 1) (acc + t), h1]

lemma rowPSums_chunk [Field F] (x1 x2 x3 x4 x5 x6 : F) (rest : List F) :
    Msm.rowPSums 6 (x1 :: x2 :: x3 :: x4 :: x5 :: x6 :: rest)
      = (x1 + x2 + x3 + x4 + x5 + x6) :: Msm.rowPSums 6 rest := by
  show Msm.psumsGo 6 _ 0 0 = _
  norm_num [Msm.psumsGo]
  rw [psumsGo_mod]
  norm_num [Msm.rowPSums]

lemma rowPSums_small [Field F] : ∀ (l : List F), l.length < 6 →
    Msm.rowPSums 6 l = if l.length = 0 then [] else [l.sum]
  | [], _ => by simp [Msm.rowPSums, Msm.psumsGo]
  | [a], _ => by norm_num [Msm.rowPSums, Msm.psumsGo]
  | [a, b], _ => by norm_num [Msm.rowPSums, Msm.psumsGo]
  | [a, b, c], _ => by norm_num [Msm.rowPSums, Msm.psumsGo]; ring
  | [a, b, c, d], _ => by norm_num [Msm.rowPSums, Msm.psumsGo]; ring
  | [a, b, c, d, e], _ => by norm_num [Msm.rowPSums, Msm.psumsGo]; ring
  | a :: b :: c :: d :: e :: f :: rest, h => by simp at h; omega

end MsmHelpers

section MsmHelpers2

variable {F : Type}

lemma rowPSums_spec [Field F] :
    ∀ (n : Nat) (l : List F), l.length = n →
      (Msm.rowPSums 6 l).length = (l.length + 5) / 6 ∧
      ∀ c, c < (l.length + 5) / 6 →
        (Msm.rowPSums 6 l).getD c 0 = ((l.drop (6 * c)).take 6).sum := by
  intro n
  induction n using Nat.strong_induction_on with
  | _ n ih =>
    intro l hl
    by_cases hsmall : l.length < 6
    · rw [rowPSums_small l hsmall]
      by_cases hz : l.length = 0
      · rw [if_pos hz]
        constructor
        · simp [hz]
        · intro c hc
          rw [hz] at hc
          omega
      · rw [if_neg hz]
        constructor
        · simp
          omega
        · intro c hc
          have hc0 : c = 0 := by omega
          subst hc0
          have htake : l.take 6 = l := List.take_of_length_le (by omega)
          simp [htake]
    · rcases l with _ | ⟨x1, l⟩
      · simp at hsmall
      rcases l with _ | ⟨x2, l⟩
      · simp at hsmall
      rcases l with _ | ⟨x3, l⟩
      · simp at hsmall
      rcases l with _ | ⟨x4, l⟩
      · simp at hsmall
      rcases l with _ | ⟨x5, l⟩
      · simp at hsmall
      rcases l with _ | ⟨x6, rest⟩
      · simp at hsmall
      rw [rowPSums_chunk]
      have hrest : rest.length < n := by
        simp at hl
        omega
      have ihr := ih rest.length hrest rest rfl
      constructor
      · simp only [List.length_cons]
        rw [ihr.1]
        omega
      · intro c hc
        match c with
        | 0 =>
          simp
          ring
        | c + 1 =>
          have h6 : 6 * (c + 1) = 6 * c + 6 := by ring
          have hdrop : List.drop (6 * (c + 1))
              (x1 :: x2 :: x3 :: x4 :: x5 :: x6 :: rest) = List.drop (6 * c) rest := by
            rw [h6]
            rfl
          rw [hdrop]
          show (Msm.rowPSums 6 rest).getD c 0 = _
          exact ihr.2 c (by simp at hc; omega)

lemma nPSums_eq (n : Nat) : Msm.nPSums n = (n + 5) / 6 := by
  simp only [Msm.nPSums, Msm.MAX_SUPPORTED_DEGREE]
  norm_num
  by_cases h : n % 6 = 0
  · rw [if_pos h]; omega
  · rw [if_neg h]; omega

lemma rowTerms_length [Field F] (r beta : F) (f : List (List (Msm.Logup F))) (j : Nat) :
    (Msm.rowTerms r beta f j).length = f.length := by
  simp [Msm.rowTerms]

lemma getD_replicate {α : Type} (n k : Nat) (d : α) :
    (List.replicate n d).getD k d = d := by
  rcases lt_or_le k n with h | h
  · rw [List.getD_eq_getElem _ _ (by simpa using h)]
    simp
  · rw [List.getD_eq_default _ _ (by simpa using h)]

lemma foldPush_spec [Field F] (row : Nat → List F) (nps : Nat)
    (hrow : ∀ j, (row j).length = nps) :
    ∀ (m : Nat),
      ((List.range m).foldl (fun ps j => Msm.pushRow ps (row j))
        (List.replicate nps [])).length = nps ∧
      ∀ c, c < nps →
        ((List.range m).foldl (fun ps j => Msm.pushRow ps (row j))
          (List.replicate nps [])).getD c []
          = (List.range m).map (fun j => (row j).getD c 0) := by
  intro m
  induction m with
  | zero =>
    constructor
    · simp
    · intro c hc
      simp [getD_replicate]
  | succ m ihm =>
    simp only [Msm.pushRow] at ihm ⊢
    rw [List.range_succ, List.foldl_append]
    simp only [List.foldl_cons, List.foldl_nil]
    constructor
    · rw [List.length_zipWith, ihm.1, hrow]
      omega
    · intro c hc
      rw [zipWith_getD _ _ _ c [] 0 [] (by rw [ihm.1, hrow]; omega)]
      rw [ihm.2 c hc, List.map_append]
      simp

end MsmHelpers2

/-- C6: `Env::create` produces exactly `ceil(n / (MAX_SUPPORTED_DEGREE - 2))`
chunk columns for `n` looked-up columns (the fixed table being the last
column), each of length the domain size, and the value of chunk `c` at
row `j` is the sum, over the lookups of that chunk, of
`numerator * (β + table_id + r·v₁ + r²·v₂ + ⋯)⁻¹` where `r` is the
vector-lookup combiner; the leftover terms of each row form one final
remainder chunk. -/
theorem lookup_partial_sums_chunked {F : Type} [Field F] (r beta : F) (dsize : Nat)
    (f : List (List (Msm.Logup F))) :
    (Msm.lookupPSums r beta dsize f).length
      = (f.length + (Msm.MAX_SUPPORTED_DEGREE - 2) - 1) / (Msm.MAX_SUPPORTED_DEGREE - 2) ∧
    ∀ c, c < (Msm.lookupPSums r beta dsize f).length →
      ((Msm.lookupPSums r beta dsize f).getD c []).length = dsize ∧
      ∀ j, j < dsize →
        ((Msm.lookupPSums r beta dsize f).getD c []).getD j 0
          = (((f.drop ((Msm.MAX_SUPPORTED_DEGREE - 2) * c)).take
                (Msm.MAX_SUPPORTED_DEGREE - 2)).map
              (fun col => (col.getD j (Msm.defaultLogup F)).numerator
                * (beta + (Msm.combinedValue r (col.getD j (Msm.defaultLogup F)).value
                    + ((col.getD j (Msm.defaultLogup F)).table_id : F)))⁻¹)).sum := by
  have hD : Msm.MAX_SUPPORTED_DEGREE - 2 = 6 := rfl
  have hrow : ∀ j, (Msm.rowPSums 6 (Msm.rowTerms r beta f j)).length
      = Msm.nPSums f.length := by
    intro j
    rw [(rowPSums_spec (Msm.rowTerms r beta f j).length _ rfl).1, rowTerms_length,
      nPSums_eq]
  have hfold := foldPush_spec (fun j => Msm.rowPSums 6 (Msm.rowTerms r beta f j))
    (Msm.nPSums f.length) hrow dsize
  have hlp : Msm.lookupPSums r beta dsize f
      = (List.range dsize).foldl
          (fun ps j => Msm.pushRow ps (Msm.rowPSums 6 (Msm.rowTerms r beta f j)))
          (List.replicate (Msm.nPSums f.length) []) := rfl
  rw [hlp]
  constructor
  · rw [hfold.1, nPSums_eq, hD]
    omega
  · intro c hc
    have hcn : c < Msm.nPSums f.length := by rw [hfold.1] at hc; exact hc
    constructor
    · rw [hfold.2 c hcn]
      simp
    · intro j hj
      rw [hfold.2 c hcn]
      rw [map_getD _ _ j 0 0 (by simpa using hj)]
      have hrj : (List.range dsize).getD j 0 = j := by
        rw [List.getD_eq_getElem (List.range dsize) 0 (by simpa using hj)]
        simp
      rw [hrj]
      have hrs := (rowPSums_spec (Msm.rowTerms r beta f j).length
        (Msm.rowTerms r beta f j) rfl).2 c
        (by rw [rowTerms_length]; rw [nPSums_eq] at hcn; exact hcn)
      rw [hrs, hD]
      simp only [Msm.rowTerms, Msm.logupTerm, Msm.lookupDenominator, List.map_take,
        List.map_drop]

/-- C6 witness: seven looked-up columns over `ZMod 5` produce two chunk
columns (one full chunk of six plus a remainder chunk), evaluated at the
remainder chunk and row 0. -/
theorem lookup_partial_sums_chunked_witness :
    (Msm.lookupPSums (1 : ZMod 5) 1 1
        (List.replicate 7 [(⟨1, 1, [1]⟩ : Msm.Logup (ZMod 5))])).length
      = (7 + (Msm.MAX_SUPPORTED_DEGREE - 2) - 1) / (Msm.MAX_SUPPORTED_DEGREE - 2) ∧
    ((Msm.lookupPSums (1 : ZMod 5) 1 1
        (List.replicate 7 [(⟨1, 1, [1]⟩ : Msm.Logup (ZMod 5))])).getD 1 []).length = 1 ∧
    ((Msm.lookupPSums (1 : ZMod 5) 1 1
        (List.replicate 7 [(⟨1, 1, [1]⟩ : Msm.Logup (ZMod 5))])).getD 1 []).getD 0 0
      = ((((List.replicate 7 [(⟨1, 1, [1]⟩ : Msm.Logup (ZMod 5))]).drop
            ((Msm.MAX_SUPPORTED_DEGREE - 2) * 1)).take (Msm.MAX_SUPPORTED_DEGREE - 2)).map
          (fun col => (col.getD 0 (Msm.defaultLogup (ZMod 5))).numerator
            * ((1 : ZMod 5) + (Msm.combinedValue 1 (col.getD 0 (Msm.defaultLogup
                (ZMod 5))).value
              + ((col.getD 0 (Msm.defaultLogup (ZMod 5))).table_id : ZMod 5)))⁻¹)).sum := by
  have h := lookup_partial_sums_chunked (1 : ZMod 5) 1 1
    (List.replicate 7 [(⟨1, 1, [1]⟩ : Msm.Logup (ZMod 5))])
  have hlen : (7 : Nat) = (List.replicate 7 [(⟨1, 1, [1]⟩ : Msm.Logup (ZMod 5))]).length := by
    decide
  refine ⟨by rw [hlen]; exact h.1, ?_, ?_⟩
  · exact (h.2 1 (by decide)).1
  · have := (h.2 1 (by decide)).2 0 (by decide)
    exact this

section MsmHelpers3

variable {F : Type}

lemma foldl_add_getD [Field F] (i : Nat) :
    ∀ (cols : List (List F)) (a : F),
      cols.foldl (fun a2 col => a2 + col.getD i 0) a
        = a + (cols.map (fun col => col.getD i 0)).sum
  | [], a => by simp
  | c :: cols, a => by
    simp only [List.foldl_cons, List.map_cons, List.sum_cons]
    rw [foldl_add_getD i cols (a + c.getD i 0)]
    ring

lemma aggregateStep_eq [Field F] (i : Nat) :
    ∀ (terms : List (Nat × List (List F))) (acc : F),
      Msm.aggregateStep terms i acc = acc + Msm.rowSumAt terms i
  | [], acc => by simp [Msm.aggregateStep, Msm.rowSumAt]
  | kv :: rest, acc => by
    have h1 : Msm.aggregateStep (kv :: rest) i acc
        = Msm.aggregateStep rest i
            (kv.2.foldl (fun a2 col => a2 + col.getD i 0) acc) := rfl
    rw [h1, aggregateStep_eq i rest _, foldl_add_getD]
    simp only [Msm.rowSumAt, List.map_cons, List.sum_cons]
    ring

lemma aggregation_spec [Field F] (terms : List (Nat × List (List F))) :
    ∀ (m : Nat), Msm.aggregation terms m
      = ((List.range m).map (fun j => Msm.phiAt terms j), Msm.phiAt terms m) := by
  intro m
  induction m with
  | zero => simp [Msm.aggregation, Msm.phiAt]
  | succ m ihm =>
    simp only [Msm.aggregation] at ihm ⊢
    rw [List.range_succ, List.foldl_append, ihm]
    simp only [List.foldl_cons, List.foldl_nil]
    refine Prod.ext ?_ ?_
    · simp [List.map_append]
    · show Msm.aggregateStep terms m (Msm.phiAt terms m) = Msm.phiAt terms (m + 1)
      rw [aggregateStep_eq]
      simp [Msm.phiAt, List.range_succ]

lemma phiAt_zero [Field F] (terms : List (Nat × List (List F))) :
    Msm.phiAt terms 0 = 0 := by
  simp [Msm.phiAt]

lemma phiAt_succ [Field F] (terms : List (Nat × List (List F))) (j : Nat) :
    Msm.phiAt terms (j + 1) = Msm.phiAt terms j + Msm.rowSumAt terms j := by
  simp [Msm.phiAt, List.range_succ]

end MsmHelpers3

/-- C3: `Env::create` builds the aggregation column with first entry 0
and `φ(j+1) = φ(j) +` (sum of the inner-sum columns at row `j`), and it
panics with "Logup accumulator must be zero" (modelled as `none`) if and
only if the accumulator after the full pass over the domain is nonzero. -/
theorem env_create_aggregation_and_assert {F C' : Type} [Field F] [DecidableEq F]
    (isFixed : Nat → Bool) (commit : List F → C') (chal : List (Msm.SpongeOp C') → F)
    (dsize : Nat) (lookups : List (Msm.LogupWitness F))
    (hd : 0 < dsize)
    (_hwf : ∀ lw ∈ lookups, lw.f ≠ [] ∧ ∀ col ∈ lw.f, col.length = dsize) :
    (Msm.Env.create isFixed commit chal dsize lookups = none ↔
      (Msm.aggregation (Msm.termsMapOf isFixed commit chal dsize lookups) dsize).2 ≠ 0) ∧
    ∀ env tr, Msm.Env.create isFixed commit chal dsize lookups = some (env, tr) →
      env.lookup_terms_map = Msm.termsMapOf isFixed commit chal dsize lookups ∧
      env.lookup_aggregation_evals_d1.length = dsize ∧
      env.lookup_aggregation_evals_d1.getD 0 0 = 0 ∧
      ∀ j, j + 1 < dsize →
        env.lookup_aggregation_evals_d1.getD (j + 1) 0
          = env.lookup_aggregation_evals_d1.getD j 0
            + Msm.rowSumAt env.lookup_terms_map j := by
  have hz0 : (Msm.aggregation (Msm.termsMapOf isFixed commit chal dsize lookups) dsize).2
      = (Msm.aggregation
          ((Msm.buildMaps isFixed (Msm.combinerOf isFixed commit chal lookups)
            (Msm.betaOf isFixed commit chal lookups) dsize lookups)).1 dsize).2 := rfl
  constructor
  · by_cases hz : (Msm.aggregation
        (Msm.termsMapOf isFixed commit chal dsize lookups) dsize).2 = 0
    · have hz2 := hz0 ▸ hz
      simp only [Msm.Env.create]
      rw [if_pos hz2]
      simp [hz]
    · have hz2 : ¬ (Msm.aggregation
          ((Msm.buildMaps isFixed (Msm.combinerOf isFixed commit chal lookups)
            (Msm.betaOf isFixed commit chal lookups) dsize lookups)).1 dsize).2 = 0 := by
        rw [← hz0]; exact hz
      simp only [Msm.Env.create]
      rw [if_neg hz2]
      simp [hz]
  · intro env tr h
    simp only [Msm.Env.create] at h
    by_cases hz2 : (Msm.aggregation
        ((Msm.buildMaps isFixed (Msm.combinerOf isFixed commit chal lookups)
          (Msm.betaOf isFixed commit chal lookups) dsize lookups)).1 dsize).2 = 0
    · rw [if_pos hz2] at h
      simp only [Option.some.injEq, Prod.mk.injEq] at h
      obtain ⟨henv, htr⟩ := h
      subst henv
      have hterms : (Msm.buildMaps isFixed (Msm.combinerOf isFixed commit chal lookups)
          (Msm.betaOf isFixed commit chal lookups) dsize lookups).1
            = Msm.termsMapOf isFixed commit chal dsize lookups := rfl
      have hagg : (Msm.aggregation
          (Msm.termsMapOf isFixed commit chal dsize lookups) dsize).1
            = (List.range dsize).map
                (fun j => Msm.phiAt (Msm.termsMapOf isFixed commit chal dsize lookups) j) := by
        rw [aggregation_spec]
      refine ⟨rfl, ?_, ?_, ?_⟩
      · show ((Msm.aggregation (Msm.termsMapOf isFixed commit chal dsize lookups)
            dsize).1).length = dsize
        rw [hagg]
        simp
      · show ((Msm.aggregation (Msm.termsMapOf isFixed commit chal dsize lookups)
            dsize).1).getD 0 0 = 0
        rw [hagg]
        rw [map_getD _ _ 0 0 0 (by simpa using hd)]
        have h0 : (List.range dsize).getD 0 0 = 0 := by
          rw [List.getD_eq_getElem (List.range dsize) 0 (by simpa using hd)]
          simp
        rw [h0, phiAt_zero]
      · intro j hj
        show ((Msm.aggregation (Msm.termsMapOf isFixed commit chal dsize lookups)
            dsize).1).getD (j + 1) 0
          = ((Msm.aggregation (Msm.termsMapOf isFixed commit chal dsize lookups)
              dsize).1).getD j 0
            + Msm.rowSumAt (Msm.termsMapOf isFixed commit chal dsize lookups) j
        rw [hagg]
        rw [map_getD _ _ (j + 1) 0 0 (by simpa using hj)]
        rw [map_getD _ _ j 0 0 (by simp; omega)]
        have hgj : ∀ k, k < dsize → (List.range dsize).getD k 0 = k := by
          intro k hk
          rw [List.getD_eq_getElem (List.range dsize) 0 (by simpa using hk)]
          simp
        rw [hgj (j + 1) hj, hgj j (by omega), phiAt_succ]
    · rw [if_neg hz2] at h
      simp at h

/-- C3 witness: a concrete one-row two-column run over `Fin 5` whose
accumulator telescopes to zero, so `Env::create` succeeds and the
assertion characterisation holds. -/
theorem env_create_aggregation_and_assert_witness :
    (Msm.Env.create (fun _ => false) (fun _ => ()) (fun _ => (0 : Fin 5)) 1
        [⟨[[(⟨1, 1, [0]⟩ : Msm.Logup (Fin 5))], [(⟨1, 4, [0]⟩ : Msm.Logup (Fin 5))]],
          [1], 1⟩] = none ↔
      (Msm.aggregation (Msm.termsMapOf (fun _ => false) (fun _ => ())
          (fun _ => (0 : Fin 5)) 1
          [⟨[[(⟨1, 1, [0]⟩ : Msm.Logup (Fin 5))], [(⟨1, 4, [0]⟩ : Msm.Logup (Fin 5))]],
            [1], 1⟩]) 1).2 ≠ 0) ∧
    (⟨[], [(1, [[0]])], [(1, [()])], [], [], [0], (), 0, 0⟩ :
        Msm.Env (Fin 5) Unit).lookup_aggregation_evals_d1.getD 0 0 = 0 := by
  have h := env_create_aggregation_and_assert (fun _ => false) (fun _ => ())
    (fun _ => (0 : Fin 5)) 1
    [⟨[[(⟨1, 1, [0]⟩ : Msm.Logup (Fin 5))], [(⟨1, 4, [0]⟩ : Msm.Logup (Fin 5))]],
      [1], 1⟩] (by decide) (by decide)
  refine ⟨h.1, ?_⟩
  exact (h.2 (⟨[], [(1, [[0]])], [(1, [()])], [], [], [0], (), 0, 0⟩ :
      Msm.Env (Fin 5) Unit)
    [Msm.SpongeOp.squeeze, Msm.SpongeOp.squeeze, Msm.SpongeOp.absorb (),
      Msm.SpongeOp.absorb ()] (by decide)).2.2.1

/-- C7: on a successful run, the sponge trace of `Env::create` is
exactly: absorb every multiplicity commitment, squeeze the combiner,
squeeze `β`, absorb the inner-sum commitments, absorb the fixed-table
commitments, absorb the aggregation commitment; the two challenges are
functions of the trace prefix available at their position, after all
multiplicity commitments and before any inner-sum commitment. -/
theorem env_create_sponge_order {F C' : Type} [Field F] [DecidableEq F]
    (isFixed : Nat → Bool) (commit : List F → C') (chal : List (Msm.SpongeOp C') → F)
    (dsize : Nat) (lookups : List (Msm.LogupWitness F))
    (env : Msm.Env F C') (tr : List (Msm.SpongeOp C'))
    (h : Msm.Env.create isFixed commit chal dsize lookups = some (env, tr)) :
    tr = env.lookup_counters_comm_d1.map (fun kv => Msm.SpongeOp.absorb kv.2)
      ++ [Msm.SpongeOp.squeeze] ++ [Msm.SpongeOp.squeeze]
      ++ (env.lookup_terms_comms_d1.map (fun kv => kv.2.map Msm.SpongeOp.absorb)).flatten
      ++ env.fixed_lookup_tables_comms_d1.map (fun kv => Msm.SpongeOp.absorb kv.2)
      ++ [Msm.SpongeOp.absorb env.lookup_aggregation_comm_d1] ∧
    env.joint_combiner
      = chal (env.lookup_counters_comm_d1.map (fun kv => Msm.SpongeOp.absorb kv.2)) ∧
    env.beta
      = chal (env.lookup_counters_comm_d1.map (fun kv => Msm.SpongeOp.absorb kv.2)
          ++ [Msm.SpongeOp.squeeze]) := by
  simp only [Msm.Env.create] at h
  by_cases hz : (Msm.aggregation
      ((Msm.buildMaps isFixed (Msm.combinerOf isFixed commit chal lookups)
        (Msm.betaOf isFixed commit chal lookups) dsize lookups)).1 dsize).2 = 0
  · rw [if_pos hz] at h
    simp only [Option.some.injEq, Prod.mk.injEq] at h
    obtain ⟨henv, htr⟩ := h
    subst henv
    subst htr
    exact ⟨rfl, rfl, rfl⟩
  · rw [if_neg hz] at h
    simp at h

/-- C7 witness: the trace of a concrete successful run over `Fin 5`. -/
theorem env_create_sponge_order_witness :
    [Msm.SpongeOp.squeeze, Msm.SpongeOp.squeeze, Msm.SpongeOp.absorb (),
        Msm.SpongeOp.absorb ()]
      = (⟨[], [(1, [[0]])], [(1, [()])], [], [], [0], (), 0, 0⟩ :
          Msm.Env (Fin 5) Unit).lookup_counters_comm_d1.map
            (fun kv => Msm.SpongeOp.absorb kv.2)
        ++ [Msm.SpongeOp.squeeze] ++ [Msm.SpongeOp.squeeze]
        ++ ((⟨[], [(1, [[0]])], [(1, [()])], [], [], [0], (), 0, 0⟩ :
            Msm.Env (Fin 5) Unit).lookup_terms_comms_d1.map
              (fun kv => kv.2.map Msm.SpongeOp.absorb)).flatten
        ++ (⟨[], [(1, [[0]])], [(1, [()])], [], [], [0], (), 0, 0⟩ :
            Msm.Env (Fin 5) Unit).fixed_lookup_tables_comms_d1.map
              (fun kv => Msm.SpongeOp.absorb kv.2)
        ++ [Msm.SpongeOp.absorb (⟨[], [(1, [[0]])], [(1, [()])], [], [], [0], (), 0, 0⟩ :
            Msm.Env (Fin 5) Unit).lookup_aggregation_comm_d1] := by
  exact (env_create_sponge_order (fun _ => false) (fun _ => ())
    (fun _ => (0 : Fin 5)) 1
    [⟨[[(⟨1, 1, [0]⟩ : Msm.Logup (Fin 5))], [(⟨1, 4, [0]⟩ : Msm.Logup (Fin 5))]],
      [1], 1⟩]
    (⟨[], [(1, [[0]])], [(1, [()])], [], [], [0], (), 0, 0⟩ : Msm.Env (Fin 5) Unit)
    [Msm.SpongeOp.squeeze, Msm.SpongeOp.squeeze, Msm.SpongeOp.absorb (),
      Msm.SpongeOp.absorb ()] (by decide)).1
